import Mathlib

/-!
Verification development for the demolyzer player-telemetry analytics engine
(`demolyzer/stats.py`).  The Python source operates on a pandas dataframe of
tick-records; here the dataframe is embedded as a list of typed rows, pandas
column operations become list operations, and exact arithmetic (ℚ, ℝ) stands
in for the floating-point columns.
-/

namespace Demolyzer

/-- Embeds `_normalize_angle`'s use of the Python `%` operator: for a positive
divisor `b`, Python's `a % b` equals `a - b * floor (a / b)` (true mathematical
modulo, non-negative result). -/
def qmod (a b : ℚ) : ℚ := a - b * (⌊a / b⌋ : ℚ)

/-- Embeds `_normalize_angle(angle) = (angle + 180) % 360 - 180`. -/
def normAngle (a : ℚ) : ℚ := qmod (a + 180) 360 - 180

/-- One row of the converted demo dataframe: the columns `tick`,
`players_info.steamId`, `players_info.name`, `players_state`,
`players_pitch_angle`, `players_view_angle`, `players_position.x`,
`players_position.y`.  Nullable (NaN-able) columns are `Option`-valued. -/
structure TickRow where
  tick : Int
  steamId : Option String
  name : Option String
  state : Option String
  pitch : ℚ
  view : ℚ
  posx : ℚ
  posy : ℚ
deriving DecidableEq

/-- The dataframe held by a `DemoAnalyzer`, in row order. -/
abbrev Table := List TickRow

/-- Embeds `df.drop_duplicates(subset=...)` keeping the first row for each
distinct key (pandas treats NaN keys as duplicates of each other, so a null
key is also kept exactly once); `seen` accumulates keys already emitted. -/
def dedupFstAux {α β : Type} [DecidableEq α] : List (α × β) → List α → List (α × β)
  | [], _ => []
  | p :: ps, seen =>
    if p.1 ∈ seen then dedupFstAux ps seen else p :: dedupFstAux ps (p.1 :: seen)

/-- Embeds `Series.unique()`: first occurrence of each distinct value, in
first-appearance order, NaN included once. -/
def uniqueAux {α : Type} [DecidableEq α] : List α → List α → List α
  | [], _ => []
  | a :: l, seen =>
    if a ∈ seen then uniqueAux l seen else a :: uniqueAux l (a :: seen)

/-- `Series.unique()` starting from no seen values. -/
def uniqueVals {α : Type} [DecidableEq α] (l : List α) : List α := uniqueAux l []

/-- Embeds the `players` property:
`drop_duplicates(subset="players_info.steamId")` followed by
`dict(zip(ids, names))`, i.e. an insertion-ordered association list from each
distinct steamId (null included) to the name field of its first row. -/
def players (df : Table) : List (Option String × Option String) :=
  dedupFstAux (df.map (fun r => (r.steamId, r.name))) []

/-- Embeds the `num_players` property:
`len(self.df["players_info.steamId"].unique())`. -/
def num_players (df : Table) : Nat :=
  (uniqueVals (df.map (fun r => r.steamId))).length

/-- Embeds pandas elementwise equality `cell == key` used by
`self.df[self.df["players_info.steamId"] == steam_id]`: a NaN on either side
compares as False, so a null key matches no row. -/
def eqMatch (cell key : Option String) : Bool :=
  match cell, key with
  | some c, some k => c == k
  | _, _ => false

/-- Embeds `player_df = self.df[self.df["players_info.steamId"] == steam_id]`. -/
def playerRows (df : Table) (key : Option String) : Table :=
  df.filter (fun r => eqMatch r.steamId key)

/-- Count of rows whose `players_state` equals the given state name; this is
the count that `value_counts().to_dict()` associates to that name (a name with
count zero is absent from the dict). -/
def countState (rows : Table) (s : String) : Nat :=
  (rows.filter (fun r => r.state == some s)).length

/-- Embeds `tick_stats.get(state, None)`: `value_counts` omits zero counts, so
a zero count surfaces as the absent marker `None`, never as `0`. -/
def optCount (n : Nat) : Option Nat :=
  if n = 0 then none else some n

/-- The per-player record `{"alive_ticks": ..., "death_ticks": ...}` built by
`death_stats`. -/
structure DeathStat where
  alive_ticks : Option Nat
  death_ticks : Option Nat
deriving DecidableEq

/-- The `death_stats` loop body for one listed player `id`. -/
def statFor (df : Table) (id : String) : DeathStat :=
  ⟨optCount (countState (playerRows df (some id)) "Alive"),
   optCount (countState (playerRows df (some id)) "Death")⟩

/-- One iteration of the `death_stats` loop over `self.players.items()`:
`if pd.isna(steam_id): continue`, otherwise emit the player's entry. -/
def deathEntry (df : Table) (p : Option String × Option String) :
    Option (Option String × DeathStat) :=
  match p.1 with
  | none => none
  | some id => some (some id, statFor df id)

/-- Embeds `DemoAnalyzer.death_stats`. -/
def death_stats (df : Table) : List (Option String × DeathStat) :=
  (players df).filterMap (deathEntry df)

/-- Embeds `series.diff()[1:]`: `diff` puts `xs[i] - xs[i-1]` at position `i`
(NaN at position 0) and `[1:]` drops that first position. -/
def diffTail {α : Type} [Sub α] (xs : List α) : List α :=
  ((xs.drop 1).zip xs).map (fun p => p.1 - p.2)

/-- Embeds `player_df["players_pitch_angle"].diff()[1:]` (plain differences,
no normalization) from `viewangle_delta_plot` / `delta_mouse_movement`. -/
def deltaPitchSeries (df : Table) (key : Option String) : List ℚ :=
  diffTail ((playerRows df key).map (fun r => r.pitch))

/-- Embeds `player_df["players_view_angle"].diff()[1:]` (raw view deltas). -/
def deltaViewRawSeries (df : Table) (key : Option String) : List ℚ :=
  diffTail ((playerRows df key).map (fun r => r.view))

/-- Embeds `(player_df["players_view_angle"].diff()[1:]).apply(_normalize_angle)`. -/
def deltaViewNormSeries (df : Table) (key : Option String) : List ℚ :=
  (deltaViewRawSeries df key).map normAngle

/-- The per-player normalized view-delta series keyed exactly as the
`viewangle_delta_plot` loop keys its traces: one trace per entry of
`self.players.items()`. -/
def viewangle_series (df : Table) : List (Option String × List ℚ) :=
  (players df).map (fun p => (p.1, deltaViewNormSeries df p.1))

/-- Embeds `delta_sum = delta_pitch + delta_view` from `delta_mouse_movement`
(pandas aligns the two series on their common index, giving the elementwise
sum of the two difference series). -/
def deltaSumSeries (df : Table) (key : Option String) : List ℚ :=
  (deltaPitchSeries df key).zipWith (· + ·) (deltaViewRawSeries df key)

/-- Embeds `ticks = player_df["tick"]` from `delta_mouse_movement`: the full
tick column of the player, with no element dropped. -/
def mouseTicks (df : Table) (key : Option String) : List Int :=
  (playerRows df key).map (fun r => r.tick)

/-- Embeds `player_df["tick"][1:]` from `viewangle_delta_plot`: the tick
column with its first element dropped. -/
def plotTicks (df : Table) (key : Option String) : List Int :=
  ((playerRows df key).map (fun r => r.tick)).drop 1

/-- Embeds `degrees(atan2(y, x))` over exact reals: the argument of the
complex number `x + y i`, scaled from radians to degrees.  `Complex.arg` is
the mathematical two-argument arctangent with range `(-pi, pi]` and
`arg 0 = 0`, matching `math.atan2`'s conventions on exact inputs. -/
noncomputable def atan2deg (y x : ℝ) : ℝ :=
  Complex.arg ⟨x, y⟩ * (180 / Real.pi)

/-- Embeds the `angle_of_movement` computation in `viewangle_delta_plot`:
`delta_x = ....diff()[1:]`, `delta_y = ....diff()[1:]`, then
`[degrees(atan2(dy, dx)) for dx, dy in zip(delta_x, delta_y)]`. -/
noncomputable def movementHeadings (df : Table) (key : Option String) : List ℝ :=
  ((diffTail ((playerRows df key).map (fun r => (r.posx : ℝ)))).zip
    (diffTail ((playerRows df key).map (fun r => (r.posy : ℝ))))).map
    (fun p => atan2deg p.2 p.1)

/-- A dataframe seen as named columns, for modelling pandas' dynamic
column access by string name (`df["players_state"]` raises `KeyError` when
the column is absent).  Only the three string-valued columns used by
`death_stats` are needed at this level. -/
structure RawTable where
  cols : List (String × List (Option String))

/-- Column access `df[c]`: the column when present, otherwise the
missing-column error pandas raises at the point of access. -/
def getCol (t : RawTable) (c : String) : Except String (List (Option String)) :=
  match t.cols.lookup c with
  | some v => Except.ok v
  | none => Except.error ("MissingColumn: " ++ c)

/-- The `death_stats` per-player record computed from raw columns: select the
state cells of the rows whose steamId cell equals the player, then count
`Alive` and `Death` occurrences as `value_counts().to_dict().get(_, None)`
does. -/
def statForRaw (ids states : List (Option String)) (id : String) : DeathStat :=
  ⟨optCount ((((ids.zip states).filter (fun q => eqMatch q.1 (some id))).map
      Prod.snd).count (some "Alive")),
   optCount ((((ids.zip states).filter (fun q => eqMatch q.1 (some id))).map
      Prod.snd).count (some "Death"))⟩

/-- One `death_stats` loop iteration at the raw-column level: a null steamId
is skipped before any further column access; for a listed player the
`players_state` column is accessed (lazily, inside the loop) and the player's
entry appended. -/
def deathStepChecked (t : RawTable) (ids : List (Option String))
    (acc : List (String × DeathStat)) (p : Option String × Option String) :
    Except String (List (String × DeathStat)) :=
  match p.1 with
  | none => pure acc
  | some id => do
    let states ← getCol t "players_state"
    pure (acc ++ [(id, statForRaw ids states id)])

/-- Embeds `death_stats` at the raw-column level, with pandas' lazy
column-by-name access made explicit: the `players` property reads the steamId
and name columns first, then the loop reads `players_state` only when it
reaches a listed (non-null) player. -/
def death_stats_checked (t : RawTable) :
    Except String (List (String × DeathStat)) := do
  let ids ← getCol t "players_info.steamId"
  let names ← getCol t "players_info.name"
  (dedupFstAux (ids.zip names) []).foldlM (deathStepChecked t ids) []

/-- The two-row example table from the spec's testable properties: player `P`
at ticks 1 and 2, both `Alive`, pitch 10 then 15, view 350 then 10, position
(0,0) then (3,4). -/
def dfW : Table :=
  [⟨1, some "P", some "N", some "Alive", 10, 350, 0, 0⟩,
   ⟨2, some "P", some "N", some "Alive", 15, 10, 3, 4⟩]

/-- A one-row table whose only row has a null steamId. -/
def df5 : Table := [⟨1, none, some "A", some "Alive", 0, 0, 0, 0⟩]

/-- A table with one null-steamId row followed by two rows of player `P`,
whose first name cell is null and second is `X`. -/
def df8 : Table :=
  [⟨1, none, some "A", none, 0, 0, 0, 0⟩,
   ⟨2, some "P", none, none, 0, 0, 0, 0⟩,
   ⟨3, some "P", some "X", none, 0, 0, 0, 0⟩]

/-- Two rows of player `P` at ticks 1 and 2 with pitch delta 5 and view
delta 7, for exercising `delta_mouse_movement`'s tick pairing. -/
def df7 : Table :=
  [⟨1, some "P", some "N", some "Alive", 0, 0, 0, 0⟩,
   ⟨2, some "P", some "N", some "Alive", 5, 7, 0, 0⟩]

/-- A raw table with steamId and name columns (one all-null row) and no
`players_state` column. -/
def t9a : RawTable :=
  ⟨[("players_info.steamId", [none]), ("players_info.name", [none])]⟩

/-- A raw table listing one player `P` and lacking the `players_state`
column. -/
def t9b : RawTable :=
  ⟨[("players_info.steamId", [some "P"]), ("players_info.name", [some "X"])]⟩

/-- Follows the spec's words for C2: the count of a player's rows with
state `Alive`, over the whole table. -/
def specAliveCount (df : Table) (id : String) : Nat :=
  (df.filter (fun r => r.steamId == some id && r.state == some "Alive")).length

/-- Follows the spec's words for C2: the count of a player's rows with
state `Death`, over the whole table. -/
def specDeathCount (df : Table) (id : String) : Nat :=
  (df.filter (fun r => r.steamId == some id && r.state == some "Death")).length

/-- Follows the spec's words for C6: the number of distinct non-null
`playerId` values in the table. -/
def specDistinctNonNullCount (df : Table) : Nat :=
  (uniqueVals (df.filterMap (fun r => r.steamId))).length

/-- `(a, b)` is the first association for key `a` in the list: some
decomposition exhibits `(a, b)` with no earlier occurrence of the key. -/
def firstKeyAssoc {α β : Type} (l : List (α × β)) (a : α) (b : β) : Prop :=
  ∃ pre post, l = pre ++ (a, b) :: post ∧ ∀ q ∈ pre, q.1 ≠ a

theorem qmod_nonneg (a : ℚ) : 0 ≤ qmod a 360 := by
  have h1 : ((⌊a / 360⌋ : ℚ)) ≤ a / 360 := Int.floor_le _
  have h1' : ((⌊a / 360⌋ : ℚ)) * 360 ≤ a :=
    (le_div_iff₀ (by norm_num : (0:ℚ) < 360)).mp h1
  simp only [qmod]
  linarith

theorem qmod_lt (a : ℚ) : qmod a 360 < 360 := by
  have h2 : a / 360 < (⌊a / 360⌋ : ℚ) + 1 := Int.lt_floor_add_one _
  have h2' : a < ((⌊a / 360⌋ : ℚ) + 1) * 360 :=
    (div_lt_iff₀ (by norm_num : (0:ℚ) < 360)).mp h2
  simp only [qmod]
  linarith

/-- Claim C1: `normalize(a)` computes `((a + 180) mod 360) - 180` with a true
mathematical modulo (non-negative before the final shift), its result lies in
the half-open range `[-180, 180)`, and it is periodic with period 360. -/
theorem normalize_angle_spec (a : ℚ) :
    normAngle a = (a + 180) - 360 * (⌊(a + 180) / 360⌋ : ℚ) - 180 ∧
    0 ≤ qmod (a + 180) 360 ∧
    -180 ≤ normAngle a ∧ normAngle a < 180 ∧
    ∀ k : ℤ, normAngle (a + 360 * k) = normAngle a := by
  refine ⟨rfl, qmod_nonneg _, ?_, ?_, ?_⟩
  · have := qmod_nonneg (a + 180)
    simp only [normAngle]
    linarith
  · have := qmod_lt (a + 180)
    simp only [normAngle]
    linarith
  · intro k
    have hdiv : (a + 360 * (k : ℚ) + 180) / 360 = (a + 180) / 360 + (k : ℚ) := by
      field_simp
      ring
    simp only [normAngle, qmod, hdiv]
    rw [Int.floor_add_int]
    push_cast
    ring

theorem diffTail_nil {α : Type} [Sub α] : diffTail ([] : List α) = [] := rfl

theorem diffTail_single {α : Type} [Sub α] (a : α) : diffTail [a] = [] := rfl

theorem diffTail_cons₂ {α : Type} [Sub α] (a b : α) (t : List α) :
    diffTail (a :: b :: t) = (b - a) :: diffTail (b :: t) := rfl

theorem length_diffTail {α : Type} [Sub α] :
    ∀ xs : List α, (diffTail xs).length = xs.length - 1
  | [] => rfl
  | [_] => rfl
  | a :: b :: t => by
    rw [diffTail_cons₂]
    simp [length_diffTail (b :: t)]

theorem diffTail_getElem? {α : Type} [Sub α] :
    ∀ (xs : List α) (i : Nat) (h : i + 1 < xs.length),
      (diffTail xs)[i]? =
        some (xs.get ⟨i + 1, h⟩ - xs.get ⟨i, Nat.lt_of_succ_lt h⟩)
  | a :: b :: t, 0, _ => by
    rw [diffTail_cons₂]
    simp
  | a :: b :: t, i + 1, h => by
    rw [diffTail_cons₂]
    have hb : i + 1 < (b :: t).length := by
      simpa using Nat.lt_of_succ_lt_succ h
    have := diffTail_getElem? (b :: t) i hb
    simpa using this

/-- Claim C3: for every player key, the pitch-delta and normalized view-delta
series are computed over that player's rows in table order with one entry per
index `i ≥ 1`: the series have length (number of rows − 1), so the first row
is excluded and a single-row player yields an empty series; entry `i − 1`
of the pitch series is the plain difference `pitch[i] − pitch[i−1]`, and the
view series entry is `normalize(view[i] − view[i−1])`. -/
theorem angle_delta_series (df : Table) (key : Option String) :
    (deltaPitchSeries df key).length = (playerRows df key).length - 1 ∧
    (deltaViewNormSeries df key).length = (playerRows df key).length - 1 ∧
    ∀ (i : Nat) (h : i + 1 < (playerRows df key).length),
      (deltaPitchSeries df key)[i]? =
        some (((playerRows df key).get ⟨i + 1, h⟩).pitch -
              ((playerRows df key).get ⟨i, Nat.lt_of_succ_lt h⟩).pitch) ∧
      (deltaViewNormSeries df key)[i]? =
        some (normAngle (((playerRows df key).get ⟨i + 1, h⟩).view -
              ((playerRows df key).get ⟨i, Nat.lt_of_succ_lt h⟩).view)) := by
  refine ⟨?_, ?_, ?_⟩
  · simp [deltaPitchSeries, length_diffTail]
  · simp [deltaViewNormSeries, deltaViewRawSeries, length_diffTail]
  · intro i h
    have hp : i + 1 < ((playerRows df key).map (fun r => r.pitch)).length := by
      simpa using h
    have hv : i + 1 < ((playerRows df key).map (fun r => r.view)).length := by
      simpa using h
    constructor
    · have := diffTail_getElem? ((playerRows df key).map (fun r => r.pitch)) i hp
      simpa [deltaPitchSeries, List.get_eq_getElem, List.getElem_map] using this
    · have := diffTail_getElem? ((playerRows df key).map (fun r => r.view)) i hv
      simp [deltaViewNormSeries, deltaViewRawSeries, List.getElem?_map, this,
        List.get_eq_getElem, List.getElem_map]

/-- Witness for C3 at the spec's two-row example: the hypothesis `0 + 1 < 2`
holds, the single pitch delta is `15 − 10 = 5`, and the single normalized
view delta is `normalize(10 − 350) = 20`. -/
theorem angle_delta_series_witness :
    0 + 1 < (playerRows dfW (some "P")).length ∧
    (deltaPitchSeries dfW (some "P"))[0]? = some 5 ∧
    (deltaViewNormSeries dfW (some "P"))[0]? = some 20 := by
  have h : 0 + 1 < (playerRows dfW (some "P")).length := by decide
  have h2 := (angle_delta_series dfW (some "P")).2.2 0 h
  refine ⟨h, ?_, ?_⟩
  · rw [h2.1]
    simp [playerRows, dfW, eqMatch, List.filter, List.get]
    norm_num
  · rw [h2.2]
    simp [playerRows, dfW, eqMatch, List.filter, List.get, normAngle, qmod]
    norm_num

/-- Claim C4: for every consecutive pair of a player's rows, the movement
heading at index `i − 1` of the series is `atan2` of the position differences
converted to degrees; `atan2deg` always lies in `(-180, 180]`; and the
stationary case `deltaX = deltaY = 0` yields heading `0`. -/
theorem movement_heading_spec (df : Table) (key : Option String) :
    (∀ (i : Nat) (h : i + 1 < (playerRows df key).length),
      (movementHeadings df key)[i]? =
        some (atan2deg
          (((playerRows df key)[i + 1].posy : ℝ) -
            ((playerRows df key)[i].posy : ℝ))
          (((playerRows df key)[i + 1].posx : ℝ) -
            ((playerRows df key)[i].posx : ℝ)))) ∧
    (∀ y x : ℝ, -180 < atan2deg y x ∧ atan2deg y x ≤ 180) ∧
    atan2deg 0 0 = 0 := by
  refine ⟨?_, ?_, ?_⟩
  · intro i h
    have hx : i + 1 < ((playerRows df key).map (fun r => (r.posx : ℝ))).length := by
      simpa using h
    have hy : i + 1 < ((playerRows df key).map (fun r => (r.posy : ℝ))).length := by
      simpa using h
    have ex := diffTail_getElem? ((playerRows df key).map (fun r => (r.posx : ℝ))) i hx
    have ey := diffTail_getElem? ((playerRows df key).map (fun r => (r.posy : ℝ))) i hy
    simp only [List.get_eq_getElem, List.getElem_map] at ex ey
    have hz :
        ((diffTail ((playerRows df key).map (fun r => (r.posx : ℝ)))).zip
          (diffTail ((playerRows df key).map (fun r => (r.posy : ℝ)))))[i]? =
        some (((playerRows df key)[i + 1].posx : ℝ) - ((playerRows df key)[i].posx : ℝ),
              ((playerRows df key)[i + 1].posy : ℝ) - ((playerRows df key)[i].posy : ℝ)) :=
      List.getElem?_zip_eq_some.mpr ⟨ex, ey⟩
    simp only [movementHeadings, List.getElem?_map]
    rw [hz]
    rfl
  · intro y x
    obtain ⟨h1, h2⟩ := Complex.arg_mem_Ioc ⟨x, y⟩
    have hpos : (0:ℝ) < 180 / Real.pi := div_pos (by norm_num) Real.pi_pos
    constructor
    · have hm := mul_lt_mul_of_pos_right h1 hpos
      have hc : Real.pi * (180 / Real.pi) = 180 := by
        rw [mul_comm]
        exact div_mul_cancel₀ 180 Real.pi_ne_zero
      have heq : -Real.pi * (180 / Real.pi) = -180 := by
        rw [neg_mul, hc]
      simp only [atan2deg]
      linarith
    · have hm := mul_le_mul_of_nonneg_right h2 (le_of_lt hpos)
      have heq : Real.pi * (180 / Real.pi) = 180 := by
        rw [mul_comm]
        exact div_mul_cancel₀ 180 Real.pi_ne_zero
      simp only [atan2deg]
      linarith
  · have h0 : (⟨0, 0⟩ : ℂ) = 0 := by
      apply Complex.ext <;> simp
    simp only [atan2deg]
    rw [h0, Complex.arg_zero, zero_mul]

/-- Witness for C4 at the spec's two-row example: the hypothesis `0 + 1 < 2`
holds and the single heading is `atan2deg 4 3` (about 53.13 degrees), from
the displacement `(3, 4)`. -/
theorem movement_heading_witness :
    0 + 1 < (playerRows dfW (some "P")).length ∧
    (movementHeadings dfW (some "P"))[0]? = some (atan2deg 4 3) := by
  have h : 0 + 1 < (playerRows dfW (some "P")).length := by decide
  refine ⟨h, ?_⟩
  have hi := (movement_heading_spec dfW (some "P")).1 0 h
  rw [hi]
  norm_num [playerRows, dfW, eqMatch, List.filter]

theorem mem_uniqueAux {α : Type} [DecidableEq α] (a : α) :
    ∀ (l seen : List α), a ∈ uniqueAux l seen ↔ a ∈ l ∧ a ∉ seen
  | [], seen => by simp [uniqueAux]
  | b :: l, seen => by
    simp only [uniqueAux]
    by_cases hb : b ∈ seen
    · rw [if_pos hb, mem_uniqueAux a l seen]
      constructor
      · exact fun h => ⟨List.mem_cons_of_mem _ h.1, h.2⟩
      · rintro ⟨h1, h2⟩
        refine ⟨?_, h2⟩
        rcases List.mem_cons.mp h1 with h3 | h3
        · exact absurd (h3 ▸ hb) h2
        · exact h3
    · rw [if_neg hb, List.mem_cons, mem_uniqueAux a l (b :: seen)]
      constructor
      · rintro (h1 | ⟨h2, h3⟩)
        · subst h1
          exact ⟨List.mem_cons_self _ _, hb⟩
        · refine ⟨List.mem_cons_of_mem _ h2, fun hc => h3 (List.mem_cons_of_mem _ hc)⟩
      · rintro ⟨h1, h2⟩
        by_cases hab : a = b
        · exact Or.inl hab
        · rcases List.mem_cons.mp h1 with h3 | h3
          · exact Or.inl h3
          · refine Or.inr ⟨h3, fun hc => ?_⟩
            rcases List.mem_cons.mp hc with h4 | h4
            · exact hab h4
            · exact h2 h4

theorem uniqueAux_nodup {α : Type} [DecidableEq α] :
    ∀ (l seen : List α), (uniqueAux l seen).Nodup
  | [], _ => List.nodup_nil
  | b :: l, seen => by
    simp only [uniqueAux]
    by_cases hb : b ∈ seen
    · rw [if_pos hb]
      exact uniqueAux_nodup l seen
    · rw [if_neg hb]
      refine List.nodup_cons.mpr ⟨?_, uniqueAux_nodup l (b :: seen)⟩
      intro hmem
      exact ((mem_uniqueAux b l (b :: seen)).mp hmem).2 (List.mem_cons_self b seen)

theorem map_fst_dedupFstAux {α β : Type} [DecidableEq α] :
    ∀ (l : List (α × β)) (seen : List α),
      (dedupFstAux l seen).map Prod.fst = uniqueAux (l.map Prod.fst) seen
  | [], _ => rfl
  | p :: l, seen => by
    simp only [dedupFstAux, List.map_cons, uniqueAux]
    by_cases hp : p.1 ∈ seen
    · rw [if_pos hp, if_pos hp, map_fst_dedupFstAux l seen]
    · rw [if_neg hp, if_neg hp, List.map_cons, map_fst_dedupFstAux l (p.1 :: seen)]

theorem firstKeyAssoc_cons {α β : Type} (q : α × β) (l : List (α × β)) (a : α) (b : β) :
    firstKeyAssoc (q :: l) a b ↔ q = (a, b) ∨ (q.1 ≠ a ∧ firstKeyAssoc l a b) := by
  constructor
  · rintro ⟨pre, post, heq, hpre⟩
    cases pre with
    | nil =>
      rw [List.nil_append] at heq
      exact Or.inl (List.cons.inj heq).1
    | cons q2 pre2 =>
      rw [List.cons_append] at heq
      obtain ⟨hq, hl⟩ := List.cons.inj heq
      refine Or.inr ⟨?_, pre2, post, hl, ?_⟩
      · rw [hq]
        exact hpre q2 (List.mem_cons_self _ _)
      · exact fun r hr => hpre r (List.mem_cons_of_mem _ hr)
  · rintro (h | ⟨hq, pre, post, heq, hpre⟩)
    · subst h
      exact ⟨[], l, rfl, by simp⟩
    · refine ⟨q :: pre, post, by rw [heq, List.cons_append], ?_⟩
      intro r hr
      rcases List.mem_cons.mp hr with h3 | h3
      · subst h3
        exact hq
      · exact hpre r h3

theorem mem_dedupFstAux {α β : Type} [DecidableEq α] (a : α) (b : β) :
    ∀ (l : List (α × β)) (seen : List α),
      (a, b) ∈ dedupFstAux l seen ↔ a ∉ seen ∧ firstKeyAssoc l a b
  | [], seen => by
    simp [dedupFstAux, firstKeyAssoc]
  | q :: l, seen => by
    simp only [dedupFstAux]
    by_cases hq : q.1 ∈ seen
    · rw [if_pos hq, mem_dedupFstAux a b l seen, firstKeyAssoc_cons]
      constructor
      · rintro ⟨h1, h2⟩
        exact ⟨h1, Or.inr ⟨fun he => h1 (he ▸ hq), h2⟩⟩
      · rintro ⟨h1, h | ⟨hne, h2⟩⟩
        · subst h
          exact absurd hq h1
        · exact ⟨h1, h2⟩
    · rw [if_neg hq, List.mem_cons, mem_dedupFstAux a b l (q.1 :: seen), firstKeyAssoc_cons]
      constructor
      · rintro (h | ⟨h1, h2⟩)
        · subst h
          exact ⟨hq, Or.inl rfl⟩
        · have ha : a ∉ seen := fun hc => h1 (List.mem_cons_of_mem _ hc)
          have hne : q.1 ≠ a := fun he => h1 (he ▸ List.mem_cons_self _ _)
          exact ⟨ha, Or.inr ⟨hne, h2⟩⟩
      · rintro ⟨h1, h | ⟨hne, h2⟩⟩
        · exact Or.inl h.symm
        · refine Or.inr ⟨fun hc => ?_, h2⟩
          rcases List.mem_cons.mp hc with h4 | h4
          · exact hne h4.symm
          · exact h1 h4

theorem uniqueAux_map {α β : Type} [DecidableEq α] [DecidableEq β] (f : α → β)
    (hf : Function.Injective f) :
    ∀ (l seen : List α), uniqueAux (l.map f) (seen.map f) = (uniqueAux l seen).map f
  | [], _ => rfl
  | a :: l, seen => by
    simp only [List.map_cons, uniqueAux]
    by_cases ha : a ∈ seen
    · rw [if_pos (List.mem_map_of_mem f ha), if_pos ha, uniqueAux_map f hf l seen]
    · have hfa : f a ∉ seen.map f := by
        intro hm
        obtain ⟨x, hx, he⟩ := List.mem_map.mp hm
        exact ha (hf he ▸ hx)
      rw [if_neg hfa, if_neg ha, List.map_cons]
      have hrec := uniqueAux_map f hf l (a :: seen)
      simp only [List.map_cons] at hrec
      rw [hrec]

/-- Counterexample for C8 as stated: on `df8` the `players` mapping contains
an entry keyed by the null steamId, and the entry for `P` holds the (null)
name of `P`'s first row, not `P`'s first non-null name `X`. -/
theorem players_name_counterexample :
    (none, some "A") ∈ players df8 ∧
    (players df8).lookup (some "P") = some none := by decide

/-- Claim C8 (amended): `players` returns a mapping with exactly one entry
per distinct steamId value of the table (a null steamId included, at most
once), whose key order equals first-appearance order (it equals the list of
unique steamId values), and whose value for each key is the name field of the
first row carrying that key; as a pure function it is deterministic. -/
theorem players_characterization (df : Table) :
    ((players df).map Prod.fst).Nodup ∧
    (players df).map Prod.fst = uniqueVals (df.map (fun r => r.steamId)) ∧
    ∀ (id nm : Option String),
      (id, nm) ∈ players df ↔
        firstKeyAssoc (df.map (fun r => (r.steamId, r.name))) id nm := by
  refine ⟨?_, ?_, ?_⟩
  · rw [players, map_fst_dedupFstAux]
    exact uniqueAux_nodup _ _
  · rw [players, map_fst_dedupFstAux, uniqueVals, List.map_map]
    rfl
  · intro id nm
    rw [players, mem_dedupFstAux]
    constructor
    · exact fun h => h.2
    · exact fun h => ⟨List.not_mem_nil id, h⟩

/-- Witness for C8's amended theorem, instantiated on the concrete table
`df8`. -/
theorem players_characterization_witness :
    ((players df8).map Prod.fst).Nodup ∧
    (players df8).map Prod.fst = uniqueVals (df8.map (fun r => r.steamId)) ∧
    ((some "P", (none : Option String)) ∈ players df8 ↔
      firstKeyAssoc (df8.map (fun r => (r.steamId, r.name))) (some "P") none) :=
  ⟨(players_characterization df8).1, (players_characterization df8).2.1,
   (players_characterization df8).2.2 (some "P") none⟩

theorem map_steamId_of_no_null :
    ∀ df : Table, (∀ r ∈ df, r.steamId ≠ none) →
      df.map (fun r => r.steamId) = (df.filterMap (fun r => r.steamId)).map some
  | [], _ => rfl
  | r :: df, h => by
    have hr := h r (List.mem_cons_self _ _)
    obtain ⟨s, hs⟩ := Option.ne_none_iff_exists'.mp hr
    simp only [List.map_cons, List.filterMap_cons, hs]
    rw [map_steamId_of_no_null df (fun r2 hr2 => h r2 (List.mem_cons_of_mem _ hr2))]

/-- Counterexample for C6 as stated: on the one-row table `df5`, whose only
row has a null steamId, `num_players` reports 1 while the number of distinct
non-null steamId values is 0. -/
theorem num_players_counts_null_counterexample :
    num_players df5 = 1 ∧ specDistinctNonNullCount df5 = 0 := by decide

/-- Claim C6 (amended): `num_players` always equals `len(players)` exactly;
it equals the number of distinct non-null steamId values whenever the table
has no null-steamId row (a null steamId is otherwise counted once by both). -/
theorem num_players_eq (df : Table) :
    num_players df = (players df).length ∧
    ((∀ r ∈ df, r.steamId ≠ none) →
      num_players df = specDistinctNonNullCount df) := by
  constructor
  · rw [num_players, players, uniqueVals,
      show df.map (fun r => r.steamId) =
          (df.map (fun r => (r.steamId, r.name))).map Prod.fst by
        rw [List.map_map]
        rfl,
      ← map_fst_dedupFstAux, List.length_map]
  · intro hnn
    rw [num_players, specDistinctNonNullCount, map_steamId_of_no_null df hnn,
      uniqueVals, uniqueVals,
      show ([] : List (Option String)) = ([] : List String).map some from rfl,
      uniqueAux_map some (Option.some_injective String), List.length_map]

/-- Witness for C6's amended theorem on the null-free table `dfW`. -/
theorem num_players_eq_witness :
    num_players dfW = (players dfW).length ∧
    num_players dfW = specDistinctNonNullCount dfW :=
  ⟨(num_players_eq dfW).1, (num_players_eq dfW).2 (by decide)⟩

theorem eqMatch_some (c : Option String) (k : String) :
    eqMatch c (some k) = (c == some k) := by
  cases c <;> rfl

theorem eqMatch_none (c : Option String) : eqMatch c none = false := by
  cases c <;> rfl

theorem playerRows_none (df : Table) : playerRows df none = [] := by
  rw [playerRows]
  apply List.filter_eq_nil_iff.mpr
  intro r _
  rw [eqMatch_none]
  simp

theorem countState_playerRows (df : Table) (id : String) (s : String) :
    countState (playerRows df (some id)) s =
      (df.filter (fun r => r.steamId == some id && r.state == some s)).length := by
  rw [countState, playerRows, List.filter_filter]
  congr 1
  apply List.filter_congr
  intro r _
  rw [eqMatch_some]
  exact Bool.and_comm _ _

theorem death_stats_lookup_aux (df : Table) (id : String) :
    ∀ ps : List (Option String × Option String),
      some id ∈ ps.map Prod.fst →
      (ps.filterMap (deathEntry df)).lookup (some id) = some (statFor df id)
  | [], h => absurd h (List.not_mem_nil _)
  | (none, nm) :: ps, h => by
    have h2 : some id ∈ ps.map Prod.fst := by
      simp only [List.map_cons, List.mem_cons] at h
      rcases h with h | h
      · exact absurd h (by simp)
      · exact h
    simpa [deathEntry] using death_stats_lookup_aux df id ps h2
  | (some j, nm) :: ps, h => by
    simp only [List.filterMap_cons, deathEntry]
    by_cases hij : id = j
    · subst hij
      simp [List.lookup]
    · have h2 : some id ∈ ps.map Prod.fst := by
        simp only [List.map_cons, List.mem_cons] at h
        rcases h with h | h
        · exact absurd (Option.some.inj h) hij
        · exact h
      have hb : ((some id : Option String) == some j) = false := by
        simp [hij]
      simp only [List.lookup, hb]
      exact death_stats_lookup_aux df id ps h2

/-- Claim C2: for every table and every listed player (a non-null key of
`players`), `death_stats` reports `alive_ticks` as the count of that player's
rows with state `Alive` and `death_ticks` as the count with state `Death`,
each wrapped by `optCount` so a zero count is the absent marker `none`, never
`0`; rows with any other state value affect neither count, and zero rows
yield `none`/`none` by the same formula rather than a failure. -/
theorem death_stats_counts (df : Table) (id : String)
    (h : some id ∈ (players df).map Prod.fst) :
    (death_stats df).lookup (some id) =
      some ⟨optCount (specAliveCount df id), optCount (specDeathCount df id)⟩ := by
  rw [death_stats, death_stats_lookup_aux df id (players df) h, statFor,
    countState_playerRows, countState_playerRows]
  rfl

/-- Witness for C2 at the spec's two-row example: `P` is listed, its two
`Alive` rows give `alive_ticks = some 2`, and its zero `Death` rows give
`death_ticks = none`. -/
theorem death_stats_counts_witness :
    some "P" ∈ (players dfW).map Prod.fst ∧
    (death_stats dfW).lookup (some "P") =
      some ⟨optCount (specAliveCount dfW "P"), optCount (specDeathCount dfW "P")⟩ :=
  ⟨by decide, death_stats_counts dfW "P" (by decide)⟩

theorem optCount_none_or_pos (n : Nat) :
    optCount n = none ∨ ∃ m : Nat, optCount n = some m ∧ 0 < m := by
  by_cases hz : n = 0
  · left
    simp [optCount, hz]
  · right
    exact ⟨n, by simp [optCount, hz], Nat.pos_of_ne_zero hz⟩

/-- Claim C10: every key of the `death_stats` result is a key of `players`,
and every per-player value is a record of exactly the two fields
`alive_ticks` and `death_ticks`, each either absent (`none`) or a positive
count — never `some 0`, and never any other state name as a field. -/
theorem death_stats_shape (df : Table) (k : Option String) (st : DeathStat)
    (h : (k, st) ∈ death_stats df) :
    k ∈ (players df).map Prod.fst ∧
    (st.alive_ticks = none ∨ ∃ n : Nat, st.alive_ticks = some n ∧ 0 < n) ∧
    (st.death_ticks = none ∨ ∃ n : Nat, st.death_ticks = some n ∧ 0 < n) := by
  rw [death_stats] at h
  obtain ⟨p, hp, hpe⟩ := List.mem_filterMap.mp h
  rcases p with ⟨pk, pn⟩
  rcases pk with _ | j
  · simp [deathEntry] at hpe
  · rw [deathEntry] at hpe
    obtain ⟨hk, hst⟩ := Prod.mk.inj (Option.some.inj hpe)
    refine ⟨?_, ?_, ?_⟩
    · rw [← hk]
      exact List.mem_map_of_mem Prod.fst hp
    · rw [← hst, statFor]
      exact optCount_none_or_pos _
    · rw [← hst, statFor]
      exact optCount_none_or_pos _

/-- Witness for C10 at the spec's two-row example, where `P`'s record is
`⟨some 2, none⟩`. -/
theorem death_stats_shape_witness :
    (some "P", (⟨some 2, none⟩ : DeathStat)) ∈ death_stats dfW ∧
    (some "P" ∈ (players dfW).map Prod.fst ∧
      ((⟨some 2, none⟩ : DeathStat).alive_ticks = none ∨
        ∃ n : Nat, (⟨some 2, none⟩ : DeathStat).alive_ticks = some n ∧ 0 < n) ∧
      ((⟨some 2, none⟩ : DeathStat).death_ticks = none ∨
        ∃ n : Nat, (⟨some 2, none⟩ : DeathStat).death_ticks = some n ∧ 0 < n)) :=
  ⟨by decide, death_stats_shape dfW (some "P") ⟨some 2, none⟩ (by decide)⟩

theorem lookup_map_key {α β γ : Type} [BEq α] [LawfulBEq α] (f : α → γ) (a : α) :
    ∀ ps : List (α × β), a ∈ ps.map Prod.fst →
      (ps.map (fun p => (p.1, f p.1))).lookup a = some (f a)
  | [], h => absurd h (List.not_mem_nil _)
  | (k, b) :: ps, h => by
    by_cases hak : a = k
    · subst hak
      simp [List.lookup]
    · have h2 : a ∈ ps.map Prod.fst := by
        simp only [List.map_cons, List.mem_cons] at h
        rcases h with h | h
        · exact absurd h hak
        · exact h
      have hb : (a == k) = false := by
        simp [hak]
      simp only [List.map_cons, List.lookup, hb]
      exact lookup_map_key f a ps h2

/-- Counterexample for C5 as stated: on the one-row table `df5`, whose only
row has a null steamId, the null id appears as the key of `players` and is
counted by `num_players`. -/
theorem null_id_in_players_counterexample :
    (players df5).map Prod.fst = [none] ∧ num_players df5 = 1 := by decide

/-- Claim C5 (amended): a null steamId never appears as a key of
`death_stats`; but when the table has a null-steamId row, the null id does
appear as a key of `players` (and hence is counted by `num_players` and keyed
in the per-player delta-series mapping), where its series is empty because a
null key equality-matches no row. -/
theorem null_id_exclusion (df : Table) :
    none ∉ (death_stats df).map Prod.fst ∧
    ((∃ r ∈ df, r.steamId = none) →
      none ∈ (players df).map Prod.fst ∧
      (viewangle_series df).lookup none = some []) := by
  constructor
  · intro hmem
    obtain ⟨⟨k, st⟩, hks, hk⟩ := List.mem_map.mp hmem
    rw [death_stats] at hks
    obtain ⟨p, hp, hpe⟩ := List.mem_filterMap.mp hks
    rcases p with ⟨pk, pn⟩
    rcases pk with _ | j
    · simp [deathEntry] at hpe
    · rw [deathEntry] at hpe
      obtain ⟨hk2, _⟩ := Prod.mk.inj (Option.some.inj hpe)
      exact Option.noConfusion (hk2.trans hk)
  · rintro ⟨r, hr, hrn⟩
    have hkeys : none ∈ (players df).map Prod.fst := by
      rw [players, map_fst_dedupFstAux]
      refine (mem_uniqueAux none _ _).mpr ⟨?_, List.not_mem_nil none⟩
      rw [List.map_map]
      exact List.mem_map.mpr ⟨r, hr, by simpa using hrn⟩
    refine ⟨hkeys, ?_⟩
    rw [viewangle_series,
      lookup_map_key (fun k => deltaViewNormSeries df k) none (players df) hkeys,
      deltaViewNormSeries, deltaViewRawSeries, playerRows_none]
    rfl

/-- Witness for C5's amended theorem on the concrete table `df5`. -/
theorem null_id_exclusion_witness :
    none ∉ (death_stats df5).map Prod.fst ∧
    (none ∈ (players df5).map Prod.fst ∧
      (viewangle_series df5).lookup none = some []) :=
  ⟨(null_id_exclusion df5).1, (null_id_exclusion df5).2 (by decide)⟩

/-- Claim C7, evaluated at the failing input: for player `P` with rows at
ticks 1 and 2 (pitch delta 5, view delta 7), the combined series is the
unnormalized sum `[12]` as claimed, but `delta_mouse_movement` supplies the
full tick column `[1, 2]` as the x-axis, so the single delta is positionally
paired with tick 1, the earlier row — whereas `viewangle_delta_plot`'s
`tick[1:]` gives `[2]`, the later row required by the claim. -/
theorem mouse_tick_misalignment :
    deltaSumSeries df7 (some "P") = [12] ∧
    mouseTicks df7 (some "P") = [1, 2] ∧
    plotTicks df7 (some "P") = [2] := by
  refine ⟨?_, by decide, by decide⟩
  norm_num [deltaSumSeries, deltaPitchSeries, deltaViewRawSeries, diffTail,
    playerRows, df7, eqMatch]

theorem foldl_step_error (t : RawTable) (ids : List (Option String)) (e : String)
    (he : getCol t "players_state" = Except.error e) :
    ∀ (ps : List (Option String × Option String)) (acc : List (String × DeathStat)),
      (∃ p ∈ ps, p.1 ≠ none) →
      ps.foldlM (deathStepChecked t ids) acc = Except.error e
  | [], _, h => by
    obtain ⟨p, hp, _⟩ := h
    exact absurd hp (List.not_mem_nil p)
  | (none, nm) :: ps, acc, h => by
    have h2 : ∃ p ∈ ps, p.1 ≠ none := by
      obtain ⟨p, hp, hne⟩ := h
      rcases List.mem_cons.mp hp with h3 | h3
      · rw [h3] at hne
        exact absurd rfl hne
      · exact ⟨p, h3, hne⟩
    have hstep : List.foldlM (deathStepChecked t ids) acc ((none, nm) :: ps) =
        List.foldlM (deathStepChecked t ids) acc ps := rfl
    rw [hstep]
    exact foldl_step_error t ids e he ps acc h2
  | (some j, nm) :: ps, acc, _ => by
    have hstep : List.foldlM (deathStepChecked t ids) acc ((some j, nm) :: ps) =
        (deathStepChecked t ids acc (some j, nm)) >>= fun s =>
          List.foldlM (deathStepChecked t ids) s ps := rfl
    have hsc : deathStepChecked t ids acc (some j, nm) = Except.error e := by
      have hd : deathStepChecked t ids acc (some j, nm) =
          (getCol t "players_state") >>= fun states =>
            pure (acc ++ [(j, statForRaw ids states j)]) := rfl
      rw [hd, he]
      rfl
    rw [hstep, hsc]
    rfl

/-- Counterexample for C9 as stated: the raw table `t9a` lacks the
`players_state` column, yet the analysis completes successfully with an
empty result, because its only row has a null steamId and the column is
accessed lazily inside the per-player loop. -/
theorem missing_column_no_players_counterexample :
    t9a.cols.lookup "players_state" = none ∧
    death_stats_checked t9a = Except.ok [] := ⟨rfl, rfl⟩

/-- Claim C9 (amended): if the input table lacks the `players_state` column
and at least one non-null player is listed, the analysis fails with a
MissingColumn error at the first access — no default is inferred and nothing
is coerced to zero; with no listed players the column is never accessed and
the analysis returns an empty result instead. -/
theorem missing_state_column_errors (t : RawTable)
    (ids names : List (Option String))
    (hs : t.cols.lookup "players_state" = none)
    (hi : t.cols.lookup "players_info.steamId" = some ids)
    (hn : t.cols.lookup "players_info.name" = some names)
    (hp : ∃ p ∈ dedupFstAux (ids.zip names) [], p.1 ≠ none) :
    death_stats_checked t =
      Except.error ("MissingColumn: " ++ "players_state") := by
  have he : getCol t "players_state" =
      Except.error ("MissingColumn: " ++ "players_state") := by
    simp only [getCol, hs]
  have h1 : death_stats_checked t =
      (getCol t "players_info.steamId") >>= fun ids2 =>
        (getCol t "players_info.name") >>= fun names2 =>
          (dedupFstAux (ids2.zip names2) []).foldlM (deathStepChecked t ids2) [] :=
    rfl
  rw [h1, show getCol t "players_info.steamId" = Except.ok ids by
      simp only [getCol, hi],
    show getCol t "players_info.name" = Except.ok names by
      simp only [getCol, hn]]
  show (dedupFstAux (ids.zip names) []).foldlM (deathStepChecked t ids) [] = _
  exact foldl_step_error t ids _ he _ _ hp

/-- Witness for C9's amended theorem on the raw table `t9b`, which lists
player `P` and lacks the `players_state` column. -/
theorem missing_state_column_errors_witness :
    death_stats_checked t9b =
      Except.error ("MissingColumn: " ++ "players_state") :=
  missing_state_column_errors t9b [some "P"] [some "X"] rfl rfl rfl
    ⟨(some "P", some "X"), by decide, by decide⟩
